import Mathlib

/-!
Shallow embedding of the breach-proof password (BPP) orchestration core of
the `pythia-node` SDK: the `Pythia` orchestrator (`src/Pythia.ts`), the
`ProofKeys` registry, and the update-token codec.

Modelling conventions:
* JavaScript strings are modelled as `List Char`; `String.prototype.split`
  becomes `jsSplit`.
* JavaScript numbers produced by `Number(...)` on dot-free fields are
  modelled as `Option Int`, where `none` stands for `NaN`; strict equality
  `===` on such numbers is `jsEq` (`NaN` is equal to nothing, itself
  included).
* Byte sequences (`Buffer`/`Uint8Array`) are `List Nat`.
* Thrown exceptions become `Except PythiaError`; the async round trip to
  the Transformation Service becomes an explicit function argument
  `pythiaClient`, and the injected crypto engine becomes a record of
  functions `PythiaCrypto`.
-/

abbrev Bytes := List Nat

abbrev JSString := List Char

/-- Model of `String.prototype.split(sep)` for a single-character
separator: splits into the (possibly empty) chunks between separator
occurrences; the empty string splits to `[[]]`. -/
def jsSplit (sep : Char) : JSString → List JSString
  | [] => [[]]
  | c :: cs =>
    let rest := jsSplit sep cs
    if c = sep then [] :: rest
    else
      match rest with
      | [] => [[c]]
      | r :: rs => (c :: r) :: rs

/-- Decimal digit run to its value; `none` when empty or a non-digit occurs. -/
def decDigitsVal (s : JSString) : Option Nat :=
  if s ≠ [] ∧ s.all Char.isDigit then
    some (s.foldl (fun acc c => acc * 10 + (c.toNat - 48)) 0)
  else none

/-- Model of the JavaScript `Number(string)` conversion as used on the
dot-free version fields of proof-key and update-token descriptors,
restricted to decimal integer forms: surrounding whitespace is trimmed,
the empty string converts to `0`, an optional sign precedes a digit run,
and every other input is `NaN`, modelled as `none`. (Exotic numeric
notations — hex, exponents, `Infinity` — are not exercised by these
descriptors and also map to `none`.) -/
def jsStrToNum (s : JSString) : Option Int :=
  let t := ((s.dropWhile Char.isWhitespace).reverse.dropWhile Char.isWhitespace).reverse
  match t with
  | [] => some 0
  | '-' :: rest => (decDigitsVal rest).map (fun n => -(n : Int))
  | '+' :: rest => (decDigitsVal rest).map (fun n => (n : Int))
  | _ => (decDigitsVal t).map (fun n => (n : Int))

/-- JavaScript strict equality `===` on numbers that may be `NaN`
(`none`): `NaN` compares unequal to everything, itself included. -/
def jsEq (a b : Option Int) : Bool :=
  match a, b with
  | some x, some y => decide (x = y)
  | _, _ => false

/-- Value of one base64 alphabet character; `none` for characters outside
the alphabet (Node's decoder skips those). -/
def base64Index (c : Char) : Option Nat :=
  if 'A' ≤ c ∧ c ≤ 'Z' then some (c.toNat - 65)
  else if 'a' ≤ c ∧ c ≤ 'z' then some (c.toNat - 97 + 26)
  else if '0' ≤ c ∧ c ≤ '9' then some (c.toNat - 48 + 52)
  else if c = '+' then some 62
  else if c = '/' then some 63
  else none

/-- Packs a stream of 6-bit values into bytes, 4 sextets to 3 bytes, with
the usual truncation for a trailing group of 2 or 3 sextets. -/
def base64Pack : List Nat → List Nat
  | a :: b :: c :: d :: rest =>
    (a * 4 + b / 16) :: ((b % 16) * 16 + c / 4) :: ((c % 4) * 64 + d) :: base64Pack rest
  | [a, b] => [a * 4 + b / 16]
  | [a, b, c] => [a * 4 + b / 16, (b % 16) * 16 + c / 4]
  | _ => []

/-- Model of Node's `Buffer.from(str, 'base64')`: characters outside the
base64 alphabet (padding included) are skipped, then sextets are packed
into bytes. -/
def base64decode (s : JSString) : Bytes :=
  base64Pack (s.filterMap base64Index)

/-- The error conditions of the core, one constructor per distinct
`throw` site (plus the transport failures propagated from the
Transformation Service collaborator). -/
inductive PythiaError where
  | emptyProofKeys
  | invalidProofKey
  | noProofKeyExists
  | noProofKeyOfVersion (version : Option Int)
  | invalidUpdateToken
  | unexpectedVersion
  | proofVerificationFailed
  | undefinedProofAccess
  | transport
deriving DecidableEq, Repr

/-- A parsed proof key: `{version, key}` as consumed by the orchestrator
(`proofKey.key` in `Pythia.ts`); `version` is the JS-number parse of the
descriptor's second field. -/
structure ProofKey where
  version : Option Int
  key : Bytes
deriving DecidableEq, Repr

/-- One `parseProofKey` call: split on dots, require exactly 3 fields with
literal first field `PK`, then take the number parse of field 1 and the
base64 decode of field 2. -/
def parseProofKey (str : JSString) : Except PythiaError ProofKey :=
  let parts := jsSplit '.' str
  if parts.length ≠ 3 ∨ parts.headD [] ≠ ['P', 'K'] then
    .error .invalidProofKey
  else
    .ok ⟨jsStrToNum (parts.getD 1 []), base64decode (parts.getD 2 [])⟩

/-- The constructor argument of `ProofKeys`: `null`/`undefined`, a single
descriptor string, or an array of them. -/
inductive ProofKeysInput where
  | nullish
  | single (s : JSString)
  | array (ss : List JSString)

/-- Model of the `toArray` helper: `null`/`undefined` pass through, a
non-array value is wrapped in a one-element array. -/
def toArray : ProofKeysInput → Option (List JSString)
  | .nullish => none
  | .single s => some [s]
  | .array ss => some ss

/-- Left-to-right map of a throwing function over a list, as
`Array.prototype.map` behaves when the callback can throw: the first
exception aborts the whole traversal. -/
def mapExcept (f : α → Except ε β) : List α → Except ε (List β)
  | [] => .ok []
  | a :: as => do
    let b ← f a
    let bs ← mapExcept f as
    return b :: bs

/-- The `ProofKeys` constructor: reject `null`/empty input, then parse
every descriptor (a single bad descriptor fails the whole construction). -/
def mkProofKeys (input : ProofKeysInput) : Except PythiaError (List ProofKey) :=
  match toArray input with
  | none => .error .emptyProofKeys
  | some ss =>
    if ss.length = 0 then .error .emptyProofKeys
    else mapExcept parseProofKey ss

/-- `ProofKeys.currentKey`: element 0 of the registry, with the defensive
check that the registry is non-empty. -/
def proofKeysCurrentKey (keys : List ProofKey) : Except PythiaError ProofKey :=
  match keys with
  | [] => .error .noProofKeyExists
  | k :: _ => .ok k

/-- `ProofKeys.proofKey(version)`: first key in registry order whose
version strictly equals the requested one. -/
def proofKeysProofKey (keys : List ProofKey) (version : Option Int) :
    Except PythiaError ProofKey :=
  match keys.find? (fun k => jsEq k.version version) with
  | some k => .ok k
  | none => .error (.noProofKeyOfVersion version)

/-- The persisted breach-proof password record. -/
structure BreachProofPassword where
  salt : Bytes
  deblindedPassword : Bytes
  version : Option Int
deriving DecidableEq, Repr

/-- The zero-knowledge proof returned by the Transformation Service. -/
structure Proof where
  valueC : Bytes
  valueU : Bytes
deriving DecidableEq, Repr

/-- Request sent to the Transformation Service by the orchestrator. -/
structure TransformRequest where
  blindedPassword : Bytes
  salt : Bytes
  version : Option Int
  includeProof : Option Bool
deriving DecidableEq, Repr

/-- Response of the Transformation Service; `proof` is optional. -/
structure TransformResponse where
  transformedPassword : Bytes
  proof : Option Proof
deriving DecidableEq, Repr

/-- The injected crypto engine capability (`IPythiaCrypto`): blind,
proof verification, deblind, and token-based update of a deblinded value. -/
structure PythiaCrypto where
  blind : Bytes → Bytes × Bytes
  verify : Bytes → Bytes → Bytes → Bytes → Bytes → Bytes → Bool
  deblind : Bytes → Bytes → Bytes
  updateDeblindedWithToken : Bytes → Bytes → Bytes

/-- The injected Transformation Service capability (`IPythiaClient`): one
request/response round trip that may fail. -/
abbrev PythiaClientFn := TransformRequest → Except PythiaError TransformResponse

/-- Modelled from the spec: the `constantTimeEqual` helper of `src/utils`,
whose source file is not part of the provided sources. Per the spec it is a
fixed-length, branch-free byte comparison with no early exit: the
byte-difference accumulator is folded over every position before the
result is read off. -/
def constantTimeEqual (a b : Bytes) : Bool :=
  if a.length ≠ b.length then false
  else decide ((List.zipWith Nat.xor a b).foldl Nat.lor 0 = 0)

/-- Fold of `Nat.lor` over a list together with the number of
accumulation steps performed, mirroring the loop of `constantTimeEqual`. -/
def lorFoldCount : List Nat → Nat → Nat × Nat
  | [], acc => (acc, 0)
  | x :: xs, acc =>
    let r := lorFoldCount xs (Nat.lor acc x)
    (r.1, r.2 + 1)

/-- Number of byte-accumulation steps `constantTimeEqual` performs on its
length-equal path. -/
def constantTimeEqualSteps (a b : Bytes) : Nat :=
  (lorFoldCount (List.zipWith Nat.xor a b) 0).2

/-- `SALT_BYTE_LENGTH` of `Pythia`. -/
def SALT_BYTE_LENGTH : Nat := 32

/-- A parsed update token. -/
structure UpdateToken where
  prevVersion : Option Int
  nextVersion : Option Int
  token : Bytes
deriving DecidableEq, Repr

/-- `Pythia.parseUpdateToken`: split on dots, require exactly 4 fields
with literal first field `UT`, then number-parse fields 1 and 2 and
base64-decode field 3. -/
def parseUpdateToken (updateToken : JSString) : Except PythiaError UpdateToken :=
  let parts := jsSplit '.' updateToken
  if parts.length ≠ 4 ∨ parts.headD [] ≠ ['U', 'T'] then
    .error .invalidUpdateToken
  else
    .ok ⟨jsStrToNum (parts.getD 1 []), jsStrToNum (parts.getD 2 []),
      base64decode (parts.getD 3 [])⟩

/-- `Pythia.verifyBreachProofPassword`: blind, look up the proof key for
the record's version, call the Transformation Service, optionally verify
the proof (a missing proof object makes the non-null assertion blow up, a
failing proof throws), deblind and compare in constant time. -/
def verifyBreachProofPassword (pythiaCrypto : PythiaCrypto)
    (pythiaClient : PythiaClientFn) (proofKeys : List ProofKey)
    (password : Bytes) (breachProofPassword : BreachProofPassword)
    (includeProof : Option Bool) : Except PythiaError Bool := do
  let (blindedPassword, blindingSecret) := pythiaCrypto.blind password
  let proofKey ← proofKeysProofKey proofKeys breachProofPassword.version
  let resp ← pythiaClient
    ⟨blindedPassword, breachProofPassword.salt, breachProofPassword.version,
      includeProof⟩
  if includeProof = some true then
    match resp.proof with
    | none => throw PythiaError.undefinedProofAccess
    | some proof =>
      if pythiaCrypto.verify resp.transformedPassword blindedPassword
          breachProofPassword.salt proofKey.key proof.valueC proof.valueU then
        pure ()
      else
        throw PythiaError.proofVerificationFailed
  let deblindedPassword := pythiaCrypto.deblind resp.transformedPassword blindingSecret
  return constantTimeEqual deblindedPassword breachProofPassword.deblindedPassword

/-- `Pythia.createBreachProofPassword`: fresh salt, blind, current proof
key, Transformation Service call with `includeProof: true`, mandatory
proof verification, deblind, package the record. -/
def createBreachProofPassword (getRandomBytes : Nat → Bytes)
    (pythiaCrypto : PythiaCrypto) (pythiaClient : PythiaClientFn)
    (proofKeys : List ProofKey) (password : Bytes) :
    Except PythiaError BreachProofPassword := do
  let salt := getRandomBytes SALT_BYTE_LENGTH
  let (blindedPassword, blindingSecret) := pythiaCrypto.blind password
  let latestProofKey ← proofKeysCurrentKey proofKeys
  let resp ← pythiaClient ⟨blindedPassword, salt, latestProofKey.version, some true⟩
  match resp.proof with
  | none => throw PythiaError.undefinedProofAccess
  | some proof =>
    if pythiaCrypto.verify resp.transformedPassword blindedPassword salt
        latestProofKey.key proof.valueC proof.valueU then
      pure ()
    else
      throw PythiaError.proofVerificationFailed
  let deblindedPassword := pythiaCrypto.deblind resp.transformedPassword blindingSecret
  return ⟨salt, deblindedPassword, latestProofKey.version⟩

/-- `Pythia.updateBreachProofPassword`: parse the token, require the
record's version to strictly equal the token's `prevVersion`, re-derive
the deblinded value locally, and package a new record carrying the old
salt and the token's `nextVersion`. -/
def updateBreachProofPassword (pythiaCrypto : PythiaCrypto)
    (updateToken : JSString) (breachProofPassword : BreachProofPassword) :
    Except PythiaError BreachProofPassword := do
  let tok ← parseUpdateToken updateToken
  if jsEq breachProofPassword.version tok.prevVersion then
    pure ()
  else
    throw PythiaError.unexpectedVersion
  let deblindedPassword := pythiaCrypto.updateDeblindedWithToken
    breachProofPassword.deblindedPassword tok.token
  return ⟨breachProofPassword.salt, deblindedPassword, tok.nextVersion⟩

theorem okBind (a : α) (f : α → Except ε β) :
    (Except.ok a : Except ε α) >>= f = f a := rfl

theorem errorBind (e : ε) (f : α → Except ε β) :
    (Except.error e : Except ε α) >>= f = Except.error e := rfl

theorem pureOk (a : α) : (pure a : Except ε α) = Except.ok a := rfl

theorem throwEq (e : ε) : (throw e : Except ε α) = Except.error e := rfl

theorem mapExcept_cons (f : α → Except ε β) (a : α) (as : List α) :
    mapExcept f (a :: as) =
      (f a).bind fun b => (mapExcept f as).bind fun bs => .ok (b :: bs) := rfl

theorem mapExcept_ok_length {f : α → Except ε β} :
    ∀ {as : List α} {bs : List β}, mapExcept f as = .ok bs → bs.length = as.length := by
  intro as
  induction as with
  | nil => intro bs h; simp [mapExcept] at h; simp [← h]
  | cons a as ih =>
    intro bs h
    rw [mapExcept_cons] at h
    cases ha : f a with
    | error e => rw [ha] at h; simp [Except.bind] at h
    | ok b =>
      rw [ha] at h
      cases hrest : mapExcept f as with
      | error e => rw [hrest] at h; simp [Except.bind] at h
      | ok bs0 =>
        rw [hrest] at h
        simp [Except.bind] at h
        subst h
        simp [ih hrest]

theorem mapExcept_ok_get {f : α → Except ε β} :
    ∀ {as : List α} {bs : List β}, mapExcept f as = .ok bs →
      ∀ i (hi : i < as.length) (hb : i < bs.length),
        f (as.get ⟨i, hi⟩) = .ok (bs.get ⟨i, hb⟩) := by
  intro as
  induction as with
  | nil => intro bs h i hi; exact absurd hi (by simp)
  | cons a as ih =>
    intro bs h i hi hb
    rw [mapExcept_cons] at h
    cases ha : f a with
    | error e => rw [ha] at h; simp [Except.bind] at h
    | ok b =>
      rw [ha] at h
      cases hrest : mapExcept f as with
      | error e => rw [hrest] at h; simp [Except.bind] at h
      | ok bs0 =>
        rw [hrest] at h
        simp [Except.bind] at h
        subst h
        match i with
        | 0 => simpa using ha
        | i + 1 =>
          exact ih hrest i (Nat.lt_of_succ_lt_succ hi) (Nat.lt_of_succ_lt_succ hb)

theorem mapExcept_error_iff {f : α → Except ε β} :
    ∀ {as : List α}, (∃ e, mapExcept f as = .error e) ↔
      ∃ a ∈ as, ∃ e, f a = .error e := by
  intro as
  induction as with
  | nil => simp [mapExcept]
  | cons a as ih =>
    rw [mapExcept_cons]
    cases ha : f a with
    | error e =>
      simp only [Except.bind]
      constructor
      · intro _; exact ⟨a, by simp, e, ha⟩
      · intro _; exact ⟨e, rfl⟩
    | ok b =>
      cases hrest : mapExcept f as with
      | error e =>
        simp only [Except.bind]
        constructor
        · intro _
          obtain ⟨x, hx, he⟩ := ih.mp ⟨e, hrest⟩
          exact ⟨x, by simp [hx], he⟩
        · intro _; exact ⟨e, rfl⟩
      | ok bs0 =>
        simp only [Except.bind]
        constructor
        · intro ⟨e, he⟩; simp at he
        · intro ⟨x, hx, e, he⟩
          rcases List.mem_cons.mp hx with h1 | h2
          · subst h1; rw [ha] at he; exact absurd he (by simp)
          · obtain ⟨e2, he2⟩ := ih.mpr ⟨x, h2, e, he⟩
            rw [hrest] at he2
            exact absurd he2 (by simp)

/-- C7: for every successfully constructed registry, `currentKey()`
returns the proof key at position 0, and its internal-consistency error
branch (registry empty after construction) is unreachable. -/
theorem currentKey_is_position_zero (input : ProofKeysInput)
    (keys : List ProofKey) (h : mkProofKeys input = .ok keys) :
    ∃ k rest, keys = k :: rest ∧ proofKeysCurrentKey keys = .ok k := by
  match hin : toArray input with
  | none =>
    simp only [mkProofKeys, hin] at h
    exact absurd h (by simp)
  | some ss =>
    simp only [mkProofKeys, hin] at h
    by_cases hlen : ss.length = 0
    · rw [if_pos hlen] at h; exact absurd h (by simp)
    · rw [if_neg hlen] at h
      have hl := mapExcept_ok_length h
      match keys with
      | [] => rw [← hl] at hlen; exact absurd rfl hlen
      | k :: rest => exact ⟨k, rest, rfl, rfl⟩

/-- Closed instance of `currentKey_is_position_zero` on the registry built
from the single descriptor `PK.1.QUFB`. -/
theorem currentKey_is_position_zero_witness :
    ∃ k rest, ([⟨some 1, [65, 65, 65]⟩] : List ProofKey) = k :: rest ∧
      proofKeysCurrentKey [⟨some 1, [65, 65, 65]⟩] = .ok k :=
  currentKey_is_position_zero (.array ["PK.1.QUFB".toList])
    [⟨some 1, [65, 65, 65]⟩] (by rfl)

/-- C2: for every record and well-formed update token,
`updateBreachProofPassword` succeeds only when the record's version
strictly equals the token's `prevVersion`; whenever they differ it throws
the version-mismatch error and returns no new record. -/
theorem update_requires_version_match (pythiaCrypto : PythiaCrypto)
    (s : JSString) (bpp : BreachProofPassword) (tok : UpdateToken)
    (h : parseUpdateToken s = .ok tok) :
    (jsEq bpp.version tok.prevVersion = false →
      updateBreachProofPassword pythiaCrypto s bpp =
        .error .unexpectedVersion) ∧
    (∀ out, updateBreachProofPassword pythiaCrypto s bpp = .ok out →
      jsEq bpp.version tok.prevVersion = true) := by
  constructor
  · intro hv
    simp only [updateBreachProofPassword, h, okBind, hv, Bool.false_eq_true,
      if_false, throwEq, errorBind]
  · intro out hout
    by_contra hv
    rw [Bool.not_eq_true] at hv
    simp only [updateBreachProofPassword, h, okBind, hv, Bool.false_eq_true,
      if_false, throwEq, errorBind] at hout
    exact absurd hout (by simp)

/-- Closed instance of `update_requires_version_match`: a record at
version 3 against the token `UT.1.2.QUFB`. -/
theorem update_requires_version_match_witness :
    updateBreachProofPassword ⟨fun b => (b, b), fun _ _ _ _ _ _ => true,
        fun t _ => t, fun d _ => d⟩ "UT.1.2.QUFB".toList
      ⟨[0], [1], some 3⟩ = .error .unexpectedVersion :=
  (update_requires_version_match _ _ _ ⟨some 1, some 2, [65, 65, 65]⟩
    (by rfl)).1 (by decide)

/-- C3: for every record and well-formed update token whose `prevVersion`
matches the record's version, `updateBreachProofPassword` returns a new
record with the same salt byte-for-byte, the token's `nextVersion`, and a
deblinded password obtained by `updateDeblindedWithToken` from the old
deblinded password and the token bytes. -/
theorem update_success_shape (pythiaCrypto : PythiaCrypto) (s : JSString)
    (bpp : BreachProofPassword) (tok : UpdateToken)
    (h : parseUpdateToken s = .ok tok)
    (hv : jsEq bpp.version tok.prevVersion = true) :
    updateBreachProofPassword pythiaCrypto s bpp =
      .ok ⟨bpp.salt,
        pythiaCrypto.updateDeblindedWithToken bpp.deblindedPassword tok.token,
        tok.nextVersion⟩ := by
  simp only [updateBreachProofPassword, h, okBind, hv, if_true, pureOk]

/-- Closed instance of `update_success_shape` on the token `UT.1.2.QUFB`
and a version-1 record. -/
theorem update_success_shape_witness :
    updateBreachProofPassword ⟨fun b => (b, b), fun _ _ _ _ _ _ => true,
        fun t _ => t, fun d t => d ++ t⟩ "UT.1.2.QUFB".toList
      ⟨[9], [1, 2], some 1⟩ = .ok ⟨[9], [1, 2, 65, 65, 65], some 2⟩ :=
  update_success_shape _ _ _ ⟨some 1, some 2, [65, 65, 65]⟩ (by rfl) (by decide)

/-- C6: update-token parsing fails with the format error exactly when the
string does not split into 4 dot-separated fields with first field the
literal `UT`; otherwise it returns the number parses of fields 1 and 2 and
the base64 decoding of field 3. -/
theorem parseUpdateToken_spec (s : JSString) :
    (((jsSplit '.' s).length ≠ 4 ∨ (jsSplit '.' s).headD [] ≠ ['U', 'T']) →
      parseUpdateToken s = .error .invalidUpdateToken) ∧
    ((jsSplit '.' s).length = 4 → (jsSplit '.' s).headD [] = ['U', 'T'] →
      parseUpdateToken s =
        .ok ⟨jsStrToNum ((jsSplit '.' s).getD 1 []),
          jsStrToNum ((jsSplit '.' s).getD 2 []),
          base64decode ((jsSplit '.' s).getD 3 [])⟩) := by
  constructor
  · intro h
    rw [parseUpdateToken, if_pos h]
  · intro h1 h2
    rw [parseUpdateToken,
      if_neg (not_or.mpr ⟨fun hne => hne h1, fun hne => hne h2⟩)]

/-- Closed instance of `parseUpdateToken_spec`: the example token
`UT.1.2.QUFB` parses to `{prevVersion: 1, nextVersion: 2, token: decode}`,
and `XX.1.2` is rejected. -/
theorem parseUpdateToken_spec_witness :
    parseUpdateToken "UT.1.2.QUFB".toList =
      .ok ⟨some 1, some 2, [65, 65, 65]⟩ ∧
    parseUpdateToken "XX.1.2".toList = .error .invalidUpdateToken := by
  constructor
  · rw [(parseUpdateToken_spec "UT.1.2.QUFB".toList).2 (by decide) (by decide)]
    rfl
  · exact (parseUpdateToken_spec "XX.1.2".toList).1 (by decide)

theorem parseProofKey_error_iff (s : JSString) :
    (∃ e, parseProofKey s = .error e) ↔
      ((jsSplit '.' s).length ≠ 3 ∨ (jsSplit '.' s).headD [] ≠ ['P', 'K']) := by
  by_cases hc : (jsSplit '.' s).length ≠ 3 ∨ (jsSplit '.' s).headD [] ≠ ['P', 'K']
  · rw [parseProofKey, if_pos hc]
    exact ⟨fun _ => hc, fun _ => ⟨.invalidProofKey, rfl⟩⟩
  · rw [parseProofKey, if_neg hc]
    exact ⟨fun ⟨e, he⟩ => absurd he (by simp), fun h => absurd h hc⟩

theorem parseProofKey_ok_shape (s : JSString) (k : ProofKey)
    (h : parseProofKey s = .ok k) :
    k = ⟨jsStrToNum ((jsSplit '.' s).getD 1 []),
      base64decode ((jsSplit '.' s).getD 2 [])⟩ := by
  by_cases hc : (jsSplit '.' s).length ≠ 3 ∨ (jsSplit '.' s).headD [] ≠ ['P', 'K']
  · rw [parseProofKey, if_pos hc] at h
    exact absurd h (by simp)
  · rw [parseProofKey, if_neg hc] at h
    simpa using h.symm

theorem find?_first_index {p : α → Bool} :
    ∀ {l : List α} {i : Nat} (hi : i < l.length),
      p (l.get ⟨i, hi⟩) = true →
      (∀ j (hj : j < l.length), j < i → p (l.get ⟨j, hj⟩) = false) →
      l.find? p = some (l.get ⟨i, hi⟩) := by
  intro l
  induction l with
  | nil => intro i hi; exact absurd hi (by simp)
  | cons a as ih =>
    intro i hi hp hbefore
    match i with
    | 0 =>
      simp only [List.get] at hp
      simp [List.find?, hp]
    | i + 1 =>
      have ha : p a = false := hbefore 0 (by simp) (Nat.succ_pos i)
      simp only [List.find?, ha]
      exact ih (Nat.lt_of_succ_lt_succ hi) hp fun j hj hji =>
        hbefore (j + 1) (Nat.succ_lt_succ hj) (Nat.succ_lt_succ hji)

/-- C5: registry construction fails with a configuration error exactly
when the input is empty or absent, or some descriptor does not split into
exactly 3 dot-separated fields, or some descriptor's first field is not
the literal tag `PK`; on any such input no registry value is produced. -/
theorem mkProofKeys_failure_iff (input : ProofKeysInput) :
    (∃ e, mkProofKeys input = .error e) ↔
      (toArray input = none ∨ toArray input = some [] ∨
        ∃ ss s, toArray input = some ss ∧ s ∈ ss ∧
          ((jsSplit '.' s).length ≠ 3 ∨
            (jsSplit '.' s).headD [] ≠ ['P', 'K'])) := by
  cases hin : toArray input with
  | none =>
    simp only [mkProofKeys, hin]
    exact ⟨fun _ => Or.inl trivial, fun _ => ⟨.emptyProofKeys, rfl⟩⟩
  | some ss =>
    simp only [mkProofKeys, hin]
    by_cases hlen : ss.length = 0
    · rw [if_pos hlen]
      rw [List.length_eq_zero] at hlen
      subst hlen
      exact ⟨fun _ => Or.inr (Or.inl rfl), fun _ => ⟨.emptyProofKeys, rfl⟩⟩
    · rw [if_neg hlen]
      constructor
      · intro he
        obtain ⟨s, hs, e, hse⟩ := mapExcept_error_iff.mp he
        exact Or.inr (Or.inr ⟨ss, s, rfl, hs,
          (parseProofKey_error_iff s).mp ⟨e, hse⟩⟩)
      · intro hbad
        rcases hbad with h1 | h2 | ⟨ss2, s, hss, hs, hfmt⟩
        · exact absurd h1 (by simp)
        · rw [Option.some_inj] at h2
          subst h2
          exact absurd rfl hlen
        · rw [Option.some_inj] at hss
          subst hss
          obtain ⟨e, he⟩ := (parseProofKey_error_iff s).mpr hfmt
          exact mapExcept_error_iff.mpr ⟨s, hs, e, he⟩

/-- Closed instance of `mkProofKeys_failure_iff`: the descriptor `XX.1.QUFB`
(wrong tag) makes construction fail, and the well-formed singleton
`PK.1.QUFB` does not satisfy the failure condition. -/
theorem mkProofKeys_failure_iff_witness :
    (∃ e, mkProofKeys (.array ["XX.1.QUFB".toList]) = .error e) ∧
    ¬(∃ e, mkProofKeys (.single "PK.1.QUFB".toList) = .error e) := by
  constructor
  · exact (mkProofKeys_failure_iff (.array ["XX.1.QUFB".toList])).mpr
      (Or.inr (Or.inr ⟨["XX.1.QUFB".toList], "XX.1.QUFB".toList, rfl,
        by simp, by decide⟩))
  · intro he
    obtain ⟨e, he⟩ := he
    have hok : mkProofKeys (.single "PK.1.QUFB".toList) =
        .ok [⟨some 1, [65, 65, 65]⟩] := by rfl
    rw [hok] at he
    exact absurd he (by simp)

/-- C4: on a registry built from valid descriptors, `proofKey(v)` returns
the first key in configuration order whose version strictly equals `v`,
as a `{version, key}` record whose `key` is the base64 decoding of the
matching descriptor's third field (and whose `version` is the number parse
of its second field); when no descriptor has version `v` it fails with the
no-such-version error. -/
theorem keyForVersion_spec (descs : List JSString) (keys : List ProofKey)
    (v : Option Int) (h : mkProofKeys (.array descs) = .ok keys) :
    ((∀ k ∈ keys, jsEq k.version v = false) →
      proofKeysProofKey keys v = .error (.noProofKeyOfVersion v)) ∧
    (∀ i (hi : i < descs.length),
      jsEq (jsStrToNum ((jsSplit '.' (descs.get ⟨i, hi⟩)).getD 1 [])) v = true →
      (∀ j (hj : j < descs.length), j < i →
        jsEq (jsStrToNum ((jsSplit '.' (descs.get ⟨j, hj⟩)).getD 1 [])) v
          = false) →
      proofKeysProofKey keys v =
        .ok ⟨jsStrToNum ((jsSplit '.' (descs.get ⟨i, hi⟩)).getD 1 []),
          base64decode ((jsSplit '.' (descs.get ⟨i, hi⟩)).getD 2 [])⟩) := by
  simp only [mkProofKeys, toArray] at h
  by_cases hlen : descs.length = 0
  · rw [if_pos hlen] at h
    exact absurd h (by simp)
  rw [if_neg hlen] at h
  have hleq : keys.length = descs.length := mapExcept_ok_length h
  have hshape : ∀ i (hi : i < descs.length) (hk : i < keys.length),
      keys.get ⟨i, hk⟩ =
        ⟨jsStrToNum ((jsSplit '.' (descs.get ⟨i, hi⟩)).getD 1 []),
          base64decode ((jsSplit '.' (descs.get ⟨i, hi⟩)).getD 2 [])⟩ :=
    fun i hi hk => parseProofKey_ok_shape _ _ (mapExcept_ok_get h i hi hk)
  constructor
  · intro hall
    rw [proofKeysProofKey, List.find?_eq_none.mpr
      (fun k hk => by simp [hall k hk])]
  · intro i hi hmatch hbefore
    have hk : i < keys.length := hleq ▸ hi
    have hfind : keys.find? (fun k => jsEq k.version v) =
        some (keys.get ⟨i, hk⟩) := by
      apply find?_first_index
      · rw [hshape i hi hk]
        exact hmatch
      · intro j hj hji
        have hjd : j < descs.length := hleq ▸ hj
        rw [hshape j hjd hj]
        exact hbefore j hjd hji
    rw [proofKeysProofKey, hfind, hshape i hi hk]

/-- Closed instance of `keyForVersion_spec` on the registry
`["PK.1.QUFB", "PK.2.QkJC"]`: version 2 resolves to the decoded second
key, version 3 fails with the no-such-version error. -/
theorem keyForVersion_spec_witness :
    proofKeysProofKey [⟨some 1, [65, 65, 65]⟩, ⟨some 2, [66, 66, 66]⟩]
      (some 2) = .ok ⟨some 2, [66, 66, 66]⟩ ∧
    proofKeysProofKey [⟨some 1, [65, 65, 65]⟩, ⟨some 2, [66, 66, 66]⟩]
      (some 3) = .error (.noProofKeyOfVersion (some 3)) := by
  have h : mkProofKeys (.array ["PK.1.QUFB".toList, "PK.2.QkJC".toList]) =
      .ok [⟨some 1, [65, 65, 65]⟩, ⟨some 2, [66, 66, 66]⟩] := by rfl
  constructor
  · have h2 := (keyForVersion_spec _ _ (some 2) h).2 1 (by decide) (by decide)
      (by
        intro j hj hji
        have hj0 : j = 0 := Nat.lt_one_iff.mp hji
        subst hj0
        have hpk : jsEq (jsStrToNum
            ((jsSplit '.' "PK.1.QUFB".toList).getD 1 [])) (some 2) = false := by
          decide
        exact hpk)
    rw [h2]
    rfl
  · exact (keyForVersion_spec _ _ (some 3) h).1 (by decide)

/-- C10: `verifyBreachProofPassword` looks up the record's proof-key
version before contacting the Transformation Service and independently of
`includeProof`: when the registry holds no key of the record's version,
the call fails with the no-such-version error for every client function
and every `includeProof` value, so the service is never consulted. -/
theorem verify_unknown_version (pythiaCrypto : PythiaCrypto)
    (pythiaClient : PythiaClientFn) (proofKeys : List ProofKey)
    (password : Bytes) (bpp : BreachProofPassword)
    (includeProof : Option Bool)
    (h : ∀ k ∈ proofKeys, jsEq k.version bpp.version = false) :
    verifyBreachProofPassword pythiaCrypto pythiaClient proofKeys password
      bpp includeProof = .error (.noProofKeyOfVersion bpp.version) := by
  have hkey : proofKeysProofKey proofKeys bpp.version =
      .error (.noProofKeyOfVersion bpp.version) := by
    rw [proofKeysProofKey, List.find?_eq_none.mpr
      (fun k hk => by simp [h k hk])]
  rcases hb : pythiaCrypto.blind password with ⟨bp, bs⟩
  simp only [verifyBreachProofPassword, hb, hkey, errorBind]

/-- Closed instance of `verify_unknown_version`: a version-7 record
against the registry holding only version 1, with `includeProof` absent
and a client that always answers. -/
theorem verify_unknown_version_witness :
    verifyBreachProofPassword ⟨fun b => (b, b), fun _ _ _ _ _ _ => true,
        fun t _ => t, fun d _ => d⟩ (fun _ => .ok ⟨[5], none⟩)
      [⟨some 1, [65, 65, 65]⟩] [9] ⟨[0], [1], some 7⟩ none =
      .error (.noProofKeyOfVersion (some 7)) :=
  verify_unknown_version _ _ _ _ _ _ (by decide)

theorem lor_eq_zero_iff (a b : Nat) : a ||| b = 0 ↔ a = 0 ∧ b = 0 := by
  constructor
  · intro h
    refine ⟨Nat.eq_of_testBit_eq fun i => ?_, Nat.eq_of_testBit_eq fun i => ?_⟩ <;>
      · have ht := congrArg (fun n => Nat.testBit n i) h
        simp [Nat.testBit_lor] at ht
        simp [ht]
  · rintro ⟨rfl, rfl⟩
    rfl

theorem foldl_lor_eq_zero (l : List Nat) (acc : Nat) :
    l.foldl Nat.lor acc = 0 ↔ acc = 0 ∧ ∀ x ∈ l, x = 0 := by
  induction l generalizing acc with
  | nil => simp
  | cons x xs ih =>
    rw [List.foldl_cons, ih]
    have : Nat.lor acc x = acc ||| x := rfl
    rw [this, lor_eq_zero_iff]
    constructor
    · rintro ⟨⟨h1, h2⟩, h3⟩
      exact ⟨h1, fun y hy => by
        rcases List.mem_cons.mp hy with rfl | hmem
        · exact h2
        · exact h3 y hmem⟩
    · rintro ⟨h1, h2⟩
      exact ⟨⟨h1, h2 x (by simp)⟩, fun y hy => h2 y (by simp [hy])⟩

theorem zipWith_xor_all_zero (a b : Bytes) (hlen : a.length = b.length) :
    (∀ x ∈ List.zipWith Nat.xor a b, x = 0) ↔ a = b := by
  induction a generalizing b with
  | nil =>
    match b with
    | [] => simp
    | y :: ys => simp at hlen
  | cons x xs ih =>
    match b with
    | [] => simp at hlen
    | y :: ys =>
      simp only [List.zipWith_cons_cons, List.mem_cons, List.cons.injEq]
      constructor
      · intro h
        have hx : x = y := Nat.xor_eq_zero.mp (h _ (Or.inl rfl))
        exact ⟨hx, (ih ys (by simpa using hlen)).mp fun z hz => h z (Or.inr hz)⟩
      · rintro ⟨rfl, rfl⟩
        intro z hz
        rcases hz with rfl | hz
        · exact Nat.xor_self x
        · exact (ih xs rfl).mpr rfl z hz

theorem constantTimeEqual_eq_true_iff (a b : Bytes) :
    constantTimeEqual a b = true ↔ a = b := by
  rw [constantTimeEqual]
  by_cases hlen : a.length ≠ b.length
  · rw [if_pos hlen]
    simp only [Bool.false_eq_true, false_iff]
    intro h
    exact hlen (by rw [h])
  · rw [if_neg hlen]
    rw [not_ne_iff] at hlen
    rw [decide_eq_true_iff, foldl_lor_eq_zero]
    simp only [true_and]
    exact zipWith_xor_all_zero a b hlen

theorem constantTimeEqual_eq_false_of_ne {a b : Bytes} (h : a ≠ b) :
    constantTimeEqual a b = false := by
  rw [← Bool.not_eq_true, constantTimeEqual_eq_true_iff]
  exact h

theorem lorFoldCount_snd (l : List Nat) (acc : Nat) :
    (lorFoldCount l acc).2 = l.length := by
  induction l generalizing acc with
  | nil => rfl
  | cons x xs ih => simp [lorFoldCount, ih]

/-- C9: when the deblinded transformation result differs from the stored
`deblindedPassword` (and, when a proof was requested, that proof
verifies), `verifyBreachProofPassword` returns the boolean `false` rather
than throwing: a password mismatch is never an exception path. -/
theorem verify_mismatch_is_false (pythiaCrypto : PythiaCrypto)
    (pythiaClient : PythiaClientFn) (proofKeys : List ProofKey)
    (password : Bytes) (bpp : BreachProofPassword)
    (includeProof : Option Bool) (bp bs : Bytes) (pk : ProofKey)
    (resp : TransformResponse)
    (hb : pythiaCrypto.blind password = (bp, bs))
    (hk : proofKeysProofKey proofKeys bpp.version = .ok pk)
    (hc : pythiaClient ⟨bp, bpp.salt, bpp.version, includeProof⟩ = .ok resp)
    (hp : includeProof = some true → ∃ pr, resp.proof = some pr ∧
      pythiaCrypto.verify resp.transformedPassword bp bpp.salt pk.key
        pr.valueC pr.valueU = true)
    (hne : pythiaCrypto.deblind resp.transformedPassword bs ≠
      bpp.deblindedPassword) :
    verifyBreachProofPassword pythiaCrypto pythiaClient proofKeys password
      bpp includeProof = .ok false := by
  by_cases hip : includeProof = some true
  · obtain ⟨pr, hpr, hv⟩ := hp hip
    subst hip
    simp [verifyBreachProofPassword, hb, hk, okBind, hc, hpr, hv,
      pureOk, constantTimeEqual_eq_false_of_ne hne]
  · simp [verifyBreachProofPassword, hb, hk, okBind, hc, if_neg hip,
      pureOk, constantTimeEqual_eq_false_of_ne hne]

/-- Closed instance of `verify_mismatch_is_false`: a non-matching
password against a version-1 record, `includeProof` absent. -/
theorem verify_mismatch_is_false_witness :
    verifyBreachProofPassword ⟨fun b => (b, b), fun _ _ _ _ _ _ => true,
        fun t _ => t, fun d _ => d⟩ (fun _ => .ok ⟨[5], none⟩)
      [⟨some 1, [65, 65, 65]⟩] [9] ⟨[0], [7], some 1⟩ none = .ok false :=
  verify_mismatch_is_false _ _ _ _ _ _ [9] [9] ⟨some 1, [65, 65, 65]⟩
    ⟨[5], none⟩ rfl rfl rfl (fun h => absurd h (by simp)) (by decide)

/-- C8: the final comparison of `verifyBreachProofPassword` is the
constant-time byte comparison: its number of accumulation steps is a
function of only the two lengths (never of how many leading bytes match),
and every successful verification returns exactly
`constantTimeEqual deblindedPassword record.deblindedPassword`. -/
theorem constant_time_comparison :
    (∀ a b : Bytes, constantTimeEqualSteps a b = min a.length b.length) ∧
    (∀ (pythiaCrypto : PythiaCrypto) (pythiaClient : PythiaClientFn)
      (proofKeys : List ProofKey) (password : Bytes)
      (bpp : BreachProofPassword) (includeProof : Option Bool)
      (bp bs : Bytes) (pk : ProofKey) (resp : TransformResponse),
      pythiaCrypto.blind password = (bp, bs) →
      proofKeysProofKey proofKeys bpp.version = .ok pk →
      pythiaClient ⟨bp, bpp.salt, bpp.version, includeProof⟩ = .ok resp →
      (includeProof = some true → ∃ pr, resp.proof = some pr ∧
        pythiaCrypto.verify resp.transformedPassword bp bpp.salt pk.key
          pr.valueC pr.valueU = true) →
      verifyBreachProofPassword pythiaCrypto pythiaClient proofKeys
        password bpp includeProof =
        .ok (constantTimeEqual
          (pythiaCrypto.deblind resp.transformedPassword bs)
          bpp.deblindedPassword)) := by
  constructor
  · intro a b
    rw [constantTimeEqualSteps, lorFoldCount_snd, List.length_zipWith]
  · intro pythiaCrypto pythiaClient proofKeys password bpp includeProof
      bp bs pk resp hb hk hc hp
    by_cases hip : includeProof = some true
    · obtain ⟨pr, hpr, hv⟩ := hp hip
      subst hip
      simp [verifyBreachProofPassword, hb, hk, okBind, hc, hpr, hv,
        pureOk]
    · simp [verifyBreachProofPassword, hb, hk, okBind, hc, if_neg hip,
        pureOk]

/-- Closed instance of `constant_time_comparison`: the step count on a
pair of length-3 byte strings differing in the first byte, and a
successful verification returning the constant-time comparison verdict. -/
theorem constant_time_comparison_witness :
    constantTimeEqualSteps [1, 2, 3] [9, 2, 3] = min 3 3 ∧
    verifyBreachProofPassword ⟨fun b => (b, b), fun _ _ _ _ _ _ => true,
        fun t _ => t, fun d _ => d⟩ (fun _ => .ok ⟨[5], none⟩)
      [⟨some 1, [65, 65, 65]⟩] [9] ⟨[0], [5], some 1⟩ none =
      .ok (constantTimeEqual [5] [5]) :=
  ⟨constant_time_comparison.1 [1, 2, 3] [9, 2, 3],
    constant_time_comparison.2 _ _ _ _ _ _ [9] [9] ⟨some 1, [65, 65, 65]⟩
      ⟨[5], none⟩ rfl rfl rfl (fun h => absurd h (by simp))⟩

/-- C1: in both `createBreachProofPassword` and
`verifyBreachProofPassword` with `includeProof` true, a failing local
proof verification of the Transformation Service response aborts the
operation with the proof-verification error: no record and no boolean is
returned, and this holds for every deblind function, so the transformed
password is never deblinded past that point. -/
theorem proof_verification_gate :
    (∀ (pythiaCrypto : PythiaCrypto) (pythiaClient : PythiaClientFn)
      (proofKeys : List ProofKey) (password : Bytes)
      (bpp : BreachProofPassword) (bp bs : Bytes) (pk : ProofKey)
      (resp : TransformResponse) (pr : Proof),
      pythiaCrypto.blind password = (bp, bs) →
      proofKeysProofKey proofKeys bpp.version = .ok pk →
      pythiaClient ⟨bp, bpp.salt, bpp.version, some true⟩ = .ok resp →
      resp.proof = some pr →
      pythiaCrypto.verify resp.transformedPassword bp bpp.salt pk.key
        pr.valueC pr.valueU = false →
      verifyBreachProofPassword pythiaCrypto pythiaClient proofKeys
        password bpp (some true) = .error .proofVerificationFailed) ∧
    (∀ (getRandomBytes : Nat → Bytes) (pythiaCrypto : PythiaCrypto)
      (pythiaClient : PythiaClientFn) (proofKeys : List ProofKey)
      (password : Bytes) (bp bs : Bytes) (lk : ProofKey)
      (resp : TransformResponse) (pr : Proof),
      pythiaCrypto.blind password = (bp, bs) →
      proofKeysCurrentKey proofKeys = .ok lk →
      pythiaClient ⟨bp, getRandomBytes SALT_BYTE_LENGTH, lk.version,
        some true⟩ = .ok resp →
      resp.proof = some pr →
      pythiaCrypto.verify resp.transformedPassword bp
        (getRandomBytes SALT_BYTE_LENGTH) lk.key pr.valueC pr.valueU
        = false →
      createBreachProofPassword getRandomBytes pythiaCrypto pythiaClient
        proofKeys password = .error .proofVerificationFailed) := by
  constructor
  · intro pythiaCrypto pythiaClient proofKeys password bpp bp bs pk resp
      pr hb hk hc hpr hv
    simp [verifyBreachProofPassword, hb, hk, okBind, hc, hpr, hv, throwEq,
      errorBind]
  · intro getRandomBytes pythiaCrypto pythiaClient proofKeys password bp
      bs lk resp pr hb hk hc hpr hv
    simp [createBreachProofPassword, hb, hk, okBind, hc, hpr, hv, throwEq,
      errorBind]

/-- Closed instance of `proof_verification_gate`: a crypto engine whose
proof verification rejects makes both verification (with proof requested)
and creation fail with the proof-verification error. -/
theorem proof_verification_gate_witness :
    verifyBreachProofPassword ⟨fun b => (b, b), fun _ _ _ _ _ _ => false,
        fun t _ => t, fun d _ => d⟩ (fun _ => .ok ⟨[5], some ⟨[1], [2]⟩⟩)
      [⟨some 1, [65, 65, 65]⟩] [9] ⟨[0], [7], some 1⟩ (some true) =
      .error .proofVerificationFailed ∧
    createBreachProofPassword (fun _ => [3])
      ⟨fun b => (b, b), fun _ _ _ _ _ _ => false, fun t _ => t,
        fun d _ => d⟩ (fun _ => .ok ⟨[5], some ⟨[1], [2]⟩⟩)
      [⟨some 1, [65, 65, 65]⟩] [9] = .error .proofVerificationFailed :=
  ⟨proof_verification_gate.1 _ _ _ _ _ [9] [9] ⟨some 1, [65, 65, 65]⟩
      ⟨[5], some ⟨[1], [2]⟩⟩ ⟨[1], [2]⟩ rfl rfl rfl rfl rfl,
    proof_verification_gate.2 _ _ _ _ _ [9] [9] ⟨some 1, [65, 65, 65]⟩
      ⟨[5], some ⟨[1], [2]⟩⟩ ⟨[1], [2]⟩ rfl rfl rfl rfl rfl⟩
